import Mathlib

/-!
Shallow embedding of the sg-swap staking contract
(src/contracts/stake/src/contract.rs) together with the parts of its state
and helper modules that the specification describes.  The 128-bit machine
integers (Uint128) of the source are embedded as natural numbers; checked
arithmetic, and the plus/minus operators that abort the instruction on
overflow or underflow, are embedded in Option / Except.  Fallible entry
points return Except ContractError.
-/

namespace SgStake

/-- Largest value representable by the 128-bit unsigned integers of the source. -/
def UINT128_MAX : Nat := 2 ^ 128 - 1

/-- Embedding of Uint128 checked_add (also of the aborting plus operator):
fails on overflow past UINT128_MAX. -/
def checked_add (a b : Nat) : Option Nat :=
  if a + b ≤ UINT128_MAX then some (a + b) else none

/-- Embedding of Uint128 checked_sub (also of the aborting minus operator):
fails on underflow. -/
def checked_sub (a b : Nat) : Option Nat :=
  if b ≤ a then some (a - b) else none

/-- Reward assets, from sg_swap::asset::AssetInfo: either a native denom or a
cw20 token contract address. -/
inductive AssetInfo where
  | Native (denom : String)
  | Token (addr : String)
deriving DecidableEq

/-- Error type of the contract (error.rs is summarised by its uses in
contract.rs; constructors carry the payloads visible at the call sites).
Overflow stands for the abort caused by checked or panicking Uint128
arithmetic. -/
inductive ContractError where
  | NoUnbondingPeriodFound (period : Nat)
  | NoRebondAmount
  | SameUnbondingRebond
  | NotEnoughStake
  | NothingToClaim
  | InvalidRewards
  | InvalidAsset
  | TooManyDistributions (max : Nat)
  | DistributionAlreadyExists (asset : AssetInfo)
  | MassDelegateTooMuch (total amount_sent : Nat)
  | Cw20AddressesNotMatch (got expected : String)
  | Unauthorized
  | Overflow
deriving DecidableEq

/-- Per-period totals, from state.rs TotalStake (shape visible through
contract.rs): total raw stake and total stake of stakers at or above
min_bond. -/
structure TotalStake where
  staked : Nat
  powered_stake : Nat
deriving DecidableEq

/-- Global aggregate, from state.rs TokenInfo as used in contract.rs. -/
structure TokenInfo where
  staked : Nat
  unbonding : Nat
deriving DecidableEq

/-- Contract configuration, from the Config struct saved by instantiate. -/
structure Config where
  instantiator : String
  cw20_contract : String
  cw721_contract : String
  tokens_per_power : Nat
  min_bond : Nat
  unbonding_periods : List Nat
  max_distributions : Nat
deriving DecidableEq

/-- Embedding of update_total_stake (contract.rs, lines 482-532), restricted
to the single TotalStake entry found by the binary search for the period:
the staked field moves by the difference of the staker old and new totals
using checked arithmetic, and powered_stake follows the four-case
transition relative to min_bond.  The aborting plus/minus operators on
powered_stake are embedded as checked_add / checked_sub, since either kind
of failure aborts the instruction. -/
def update_total_stake (min_bond : Nat) (total : TotalStake)
    (old_stake new_stake : Nat) : Option TotalStake :=
  Option.bind
    (if old_stake ≤ new_stake then checked_add total.staked (new_stake - old_stake)
     else checked_sub total.staked (old_stake - new_stake)) fun staked =>
  Option.bind
    (if min_bond ≤ old_stake then
       if min_bond ≤ new_stake then
         if old_stake ≤ new_stake then checked_add total.powered_stake (new_stake - old_stake)
         else checked_sub total.powered_stake (old_stake - new_stake)
       else checked_sub total.powered_stake old_stake
     else
       if min_bond ≤ new_stake then checked_add total.powered_stake new_stake
       else some total.powered_stake) fun powered_stake =>
  some { staked := staked, powered_stake := powered_stake }

/-- Contribution of one staker to powered_stake: the full stake when at or
above min_bond, otherwise nothing. -/
def powerTerm (min_bond v : Nat) : Nat := if min_bond ≤ v then v else 0

/-- States of one period of TOTAL_PER_PERIOD reachable by any sequence of
bond, mass_bond, unbond and rebond operations.  Every one of those
operations changes the per-period stake of exactly one staker at a time
(mass_bond and rebond are sequences of such changes) and immediately calls
update_total_stake with that staker full before/after totals, so a step
here is: pick a staker s, pick any new total v for s, and apply
update_total_stake with old = current total of s and new = v.  The staker
map f tracks every staker current total in this period. -/
inductive ReachableTotal {S : Type} [DecidableEq S] (min_bond : Nat) :
    (S → Nat) → TotalStake → Prop where
  | init : ReachableTotal min_bond (fun _ => 0) ⟨0, 0⟩
  | step {f : S → Nat} {t : TotalStake} {s : S} {v : Nat} {t2 : TotalStake} :
      ReachableTotal min_bond f t →
      update_total_stake min_bond t (f s) v = some t2 →
      ReachableTotal min_bond (Function.update f s v) t2

theorem checked_add_eq_some {a b c : Nat} (h : checked_add a b = some c) : c = a + b := by
  unfold checked_add at h
  split at h <;> simp_all

theorem checked_sub_eq_some {a b c : Nat} (h : checked_sub a b = some c) :
    b ≤ a ∧ c = a - b := by
  unfold checked_sub at h
  split at h <;> simp_all

theorem sum_eq_add_sum_erase {S : Type} [Fintype S] [DecidableEq S]
    (g : S → Nat) (s : S) :
    (∑ x, g x) = g s + ∑ x ∈ Finset.univ.erase s, g x :=
  (Finset.add_sum_erase _ g (Finset.mem_univ s)).symm

theorem sum_update_eq {S : Type} [Fintype S] [DecidableEq S]
    (f : S → Nat) (s : S) (v : Nat) (h : Nat → Nat) :
    (∑ x, h (Function.update f s v x)) =
      h v + ∑ x ∈ Finset.univ.erase s, h (f x) := by
  rw [sum_eq_add_sum_erase (fun x => h (Function.update f s v x)) s,
    Function.update_same]
  congr 1
  refine Finset.sum_congr rfl fun x hx => ?_
  rw [Function.update_noteq (Finset.ne_of_mem_erase hx)]

/-- In every reachable state of a period, staked is the sum of all staker
totals and powered_stake is the sum of the totals at or above min_bond. -/
theorem reachable_total_invariant {S : Type} [Fintype S] [DecidableEq S]
    {min_bond : Nat} {f : S → Nat} {t : TotalStake}
    (h : ReachableTotal min_bond f t) :
    t.staked = (∑ x, f x) ∧ t.powered_stake = ∑ x, powerTerm min_bond (f x) := by
  induction h with
  | init => simp [powerTerm]
  | @step f t s v t2 _ hupd ih =>
    obtain ⟨h1, h2⟩ := ih
    rw [update_total_stake] at hupd
    obtain ⟨stk, hstk, hrest⟩ := Option.bind_eq_some.mp hupd
    obtain ⟨pwd, hpwd, hsome⟩ := Option.bind_eq_some.mp hrest
    obtain rfl : t2 = ⟨stk, pwd⟩ := (Option.some.inj hsome).symm
    have hs1 := sum_eq_add_sum_erase f s
    have hs2 := sum_update_eq f s v (fun x => x)
    have hp1 := sum_eq_add_sum_erase (fun x => powerTerm min_bond (f x)) s
    have hp2 := sum_update_eq f s v (powerTerm min_bond)
    constructor
    · rw [hs2]
      show stk = v + ∑ x ∈ Finset.univ.erase s, f x
      split at hstk
      · have := checked_add_eq_some hstk
        omega
      · have := checked_sub_eq_some hstk
        omega
    · rw [hp2]
      show pwd = powerTerm min_bond v + ∑ x ∈ Finset.univ.erase s, powerTerm min_bond (f x)
      split at hpwd
      next hob =>
        have e1 : powerTerm min_bond (f s) = f s := by simp [powerTerm, hob]
        split at hpwd
        next hnb =>
          have e2 : powerTerm min_bond v = v := by simp [powerTerm, hnb]
          split at hpwd
          next hvo =>
            have := checked_add_eq_some hpwd
            omega
          next hvo =>
            have := checked_sub_eq_some hpwd
            omega
        next hnb =>
          have e2 : powerTerm min_bond v = 0 := by simp [powerTerm, hnb]
          have := checked_sub_eq_some hpwd
          omega
      next hob =>
        have e1 : powerTerm min_bond (f s) = 0 := by simp [powerTerm, hob]
        split at hpwd
        next hnb =>
          have e2 : powerTerm min_bond v = v := by simp [powerTerm, hnb]
          have := checked_add_eq_some hpwd
          omega
        next hnb =>
          have e2 : powerTerm min_bond v = 0 := by simp [powerTerm, hnb]
          obtain rfl : t.powered_stake = pwd := Option.some.inj hpwd
          omega

/-- C1: for every period and every state reachable by any sequence of bond,
mass_bond, unbond and rebond operations, each of which adjusts the period
totals through update_total_stake from the staker full before/after totals
using the four-case transition relative to min_bond, the per-period total
satisfies powered_stake less than or equal to staked. -/
theorem powered_stake_le_staked {S : Type} [Fintype S] [DecidableEq S]
    {min_bond : Nat} {f : S → Nat} {t : TotalStake}
    (h : ReachableTotal min_bond f t) :
    t.powered_stake ≤ t.staked := by
  obtain ⟨h1, h2⟩ := reachable_total_invariant h
  rw [h1, h2]
  exact Finset.sum_le_sum fun x _ => by unfold powerTerm; split <;> omega

theorem powered_stake_le_staked_witness :
    (TotalStake.mk 0 0).powered_stake ≤ (TotalStake.mk 0 0).staked :=
  @powered_stake_le_staked (Fin 1) _ _ 5 _ _ ReachableTotal.init

/-- Modelled from the spec: BondingInfo (state.rs is not under src/), per
section 3 of the spec a free (unlocked) balance and an ordered collection of
locked tranches, each an (unlock_time, amount) pair. -/
structure BondingInfo where
  free : Nat
  locked_tranches : List (Nat × Nat)
deriving DecidableEq

/-- The default BondingInfo used by unwrap_or_default at first access. -/
def BondingInfo.empty : BondingInfo := ⟨0, []⟩

/-- Modelled from the spec: total_stake is the free balance plus the sum of
all tranche amounts. -/
def BondingInfo.total_stake (b : BondingInfo) : Nat :=
  b.free + (b.locked_tranches.map Prod.snd).sum

/-- Modelled from the spec: add_unlocked_tokens adds to the free balance. -/
def BondingInfo.add_unlocked_tokens (b : BondingInfo) (amount : Nat) : BondingInfo :=
  { b with free := b.free + amount }

/-- Modelled from the spec: add_locked_tokens appends a locked tranche with
the given unlock time. -/
def BondingInfo.add_locked_tokens (b : BondingInfo) (unlock_time amount : Nat) : BondingInfo :=
  { b with locked_tranches := b.locked_tranches ++ [(unlock_time, amount)] }

/-- Modelled from the spec: tranches whose unlock time has passed are
converted into free balance. -/
def BondingInfo.mature (b : BondingInfo) (now : Nat) : BondingInfo :=
  { free := b.free +
      ((b.locked_tranches.filter (fun p => decide (p.1 ≤ now))).map Prod.snd).sum,
    locked_tranches := b.locked_tranches.filter (fun p => ! decide (p.1 ≤ now)) }

/-- Stake available for release at the given time: the free balance plus all
matured tranches. -/
def BondingInfo.available (b : BondingInfo) (now : Nat) : Nat := (b.mature now).free

/-- Modelled from the spec: release_stake first consumes tranches whose
unlock time has passed, converting them to availability, then the free
balance; insufficient available stake is a hard error. -/
def BondingInfo.release_stake (b : BondingInfo) (now amount : Nat) :
    Except ContractError BondingInfo :=
  if amount ≤ (b.mature now).free then
    .ok { b.mature now with free := (b.mature now).free - amount }
  else .error .NotEnoughStake

/-- Lookup in an association list with a default value (storage may_load
followed by unwrap_or_default). -/
def mapGet {κ ν : Type} [DecidableEq κ] (m : List (κ × ν)) (k : κ) (d : ν) : ν :=
  match m.find? (fun e => decide (e.1 = k)) with
  | some e => e.2
  | none => d

/-- Store a value under a key in an association list (storage save). -/
def mapSet {κ ν : Type} [DecidableEq κ] (m : List (κ × ν)) (k : κ) (v : ν) :
    List (κ × ν) :=
  (k, v) :: m.filter (fun e => ! decide (e.1 = k))

theorem mapGet_mapSet_same {κ ν : Type} [DecidableEq κ]
    (m : List (κ × ν)) (k : κ) (v : ν) (d : ν) :
    mapGet (mapSet m k v) k d = v := by
  simp [mapGet, mapSet, List.find?]

theorem mapGet_mapSet_ne {κ ν : Type} [DecidableEq κ]
    (m : List (κ × ν)) (k k2 : κ) (v : ν) (d : ν) (h : k ≠ k2) :
    mapGet (mapSet m k v) k2 d = mapGet m k2 d := by
  have hfind : ∀ l : List (κ × ν),
      (l.filter (fun e => ! decide (e.1 = k))).find? (fun e => decide (e.1 = k2)) =
        l.find? (fun e => decide (e.1 = k2)) := by
    intro l
    induction l with
    | nil => rfl
    | cons a l ih =>
      by_cases hak : a.1 = k
      · have ha2 : ¬ a.1 = k2 := by rw [hak]; exact h
        simp [List.filter_cons, List.find?_cons, hak, ha2, ih, h]
      · by_cases ha : a.1 = k2
        · simp [List.filter_cons, List.find?_cons, hak, ha, Ne.symm h]
        · simp [List.filter_cons, List.find?_cons, hak, ha, ih]
  have hk : ¬ (k = k2) := h
  simp [mapGet, mapSet, List.find?, hk, hfind m]

deriving instance DecidableEq for Except

/-- A pending unbonding claim, from the external claims controller: amount
and the AtTime expiration embedded as a timestamp. -/
structure Claim where
  amount : Nat
  release_at : Nat
deriving DecidableEq

/-- Combined contract storage touched by the staking instructions: STAKE
keyed by (staker, unbonding period), TOTAL_PER_PERIOD, TOTAL_STAKED and
CLAIMS keyed by staker. -/
structure StakeState where
  stakes : List ((String × Nat) × BondingInfo)
  totals : List (Nat × TotalStake)
  token_info : TokenInfo
  claims : List (String × List Claim)
deriving DecidableEq

/-- The BondingInfo of a staker for a period, defaulting to the empty record. -/
def bondingAt (st : StakeState) (staker : String) (period : Nat) : BondingInfo :=
  mapGet st.stakes (staker, period) BondingInfo.empty

/-- Aborting Uint128 addition as an Except value. -/
def exceptAdd (a b : Nat) : Except ContractError Nat :=
  match checked_add a b with
  | some c => .ok c
  | none => .error .Overflow

theorem exceptAdd_ok {a b c : Nat} (h : exceptAdd a b = .ok c) : c = a + b := by
  unfold exceptAdd at h
  cases hc : checked_add a b with
  | none => rw [hc] at h; cases h
  | some x =>
    rw [hc] at h
    cases h
    exact checked_add_eq_some hc

/-- The list-level part of update_total_stake: load the whole ordered list,
find the entry of the period (the binary search over the sorted list
succeeds exactly when the period is a key), update it, save the list. -/
def update_totals (min_bond : Nat) (totals : List (Nat × TotalStake))
    (period old_stake new_stake : Nat) : Except ContractError (List (Nat × TotalStake)) :=
  if (totals.find? (fun e => decide (e.1 = period))).isSome then
    totals.mapM (fun e =>
      if e.1 = period then
        match update_total_stake min_bond e.2 old_stake new_stake with
        | some t2 => Except.ok (e.1, t2)
        | none => Except.error ContractError.Overflow
      else Except.ok e)
  else .error (.NoUnbondingPeriodFound period)

/-- Embedding of execute_unbond (contract.rs, lines 578-655).  The period
check is the binary search over the sorted config list, equivalent to
membership.  The per-distribution reward-power adjustment loop only touches
the distribution store and the per-staker adjustment records, which are
embedded separately (update_rewards below); it reads but never writes the
fields tracked here, so it is omitted from this state. -/
def execute_unbond (cfg : Config) (now : Nat) (sender : String) (amount : Nat)
    (unbonding_period : Nat) (st : StakeState) : Except ContractError StakeState :=
  if unbonding_period ∈ cfg.unbonding_periods then
    match (bondingAt st sender unbonding_period).release_stake now amount with
    | .error e => .error e
    | .ok info2 =>
      match update_totals cfg.min_bond st.totals unbonding_period
          (bondingAt st sender unbonding_period).total_stake info2.total_stake with
      | .error e => .error e
      | .ok totals2 =>
        match exceptAdd st.token_info.unbonding amount with
        | .error e => .error e
        | .ok unbonding2 =>
          .ok { stakes := mapSet st.stakes (sender, unbonding_period) info2,
                totals := totals2,
                token_info := { staked := st.token_info.staked - amount,
                                unbonding := unbonding2 },
                claims := mapSet st.claims sender
                  (mapGet st.claims sender [] ++ [⟨amount, now + unbonding_period⟩]) }
  else .error (.NoUnbondingPeriodFound unbonding_period)

theorem sum_map_filter_partition {α : Type} (l : List α) (p : α → Bool) (g : α → Nat) :
    ((l.filter p).map g).sum + ((l.filter (fun x => ! p x)).map g).sum = (l.map g).sum := by
  induction l with
  | nil => simp
  | cons a l ih =>
    cases hpa : p a <;> simp [List.filter_cons, hpa] <;> omega

theorem mature_total_stake (b : BondingInfo) (now : Nat) :
    (b.mature now).total_stake = b.total_stake := by
  unfold BondingInfo.mature BondingInfo.total_stake
  have := sum_map_filter_partition b.locked_tranches (fun p => decide (p.1 ≤ now)) Prod.snd
  simp only at this ⊢
  omega

theorem release_stake_ok {b : BondingInfo} {now amount : Nat} {b2 : BondingInfo}
    (h : b.release_stake now amount = .ok b2) :
    amount ≤ b.total_stake ∧ b2.total_stake + amount = b.total_stake := by
  have hm := mature_total_stake b now
  unfold BondingInfo.release_stake at h
  split at h
  next hle =>
    obtain rfl := Except.ok.inj h
    unfold BondingInfo.total_stake at hm ⊢
    simp only at hm ⊢
    omega
  next hle => cases h

theorem release_stake_insufficient {b : BondingInfo} {now amount : Nat}
    (h : b.available now < amount) :
    b.release_stake now amount = .error .NotEnoughStake := by
  unfold BondingInfo.release_stake
  unfold BondingInfo.available at h
  rw [if_neg (by omega)]

/-- C2: unbond fails with NoUnbondingPeriodFound when the period is not
configured; fails with the insufficient-stake error when the available
stake of the staker in that period is below the amount; and on success it
appends exactly one claim of that amount maturing at now plus the period,
decrements TokenInfo.staked by the amount (with the saturating subtraction
of the source), increments TokenInfo.unbonding by the amount, and removes
the amount from the staker stake in the period. -/
theorem execute_unbond_spec (cfg : Config) (now : Nat) (sender : String)
    (amount period : Nat) (st : StakeState) :
    (period ∉ cfg.unbonding_periods →
      execute_unbond cfg now sender amount period st =
        .error (.NoUnbondingPeriodFound period)) ∧
    (period ∈ cfg.unbonding_periods →
      (bondingAt st sender period).available now < amount →
      execute_unbond cfg now sender amount period st = .error .NotEnoughStake) ∧
    (∀ st2, execute_unbond cfg now sender amount period st = .ok st2 →
      mapGet st2.claims sender [] =
        mapGet st.claims sender [] ++ [Claim.mk amount (now + period)] ∧
      st2.token_info.staked = st.token_info.staked - amount ∧
      (amount ≤ st.token_info.staked →
        st2.token_info.staked + amount = st.token_info.staked) ∧
      st2.token_info.unbonding = st.token_info.unbonding + amount ∧
      amount ≤ (bondingAt st sender period).total_stake ∧
      (bondingAt st2 sender period).total_stake + amount =
        (bondingAt st sender period).total_stake) := by
  refine ⟨?_, ?_, ?_⟩
  · intro h
    simp [execute_unbond, h]
  · intro hp hlt
    have herr := release_stake_insufficient hlt
    simp [execute_unbond, hp, herr]
  · intro st2 h
    unfold execute_unbond at h
    split at h
    · split at h
      next e hrel => exact absurd h (by simp)
      next info2 hrel =>
        split at h
        next e htot => exact absurd h (by simp)
        next totals2 htot =>
          split at h
          next e hadd => exact absurd h (by simp)
          next unbonding2 hadd =>
            obtain rfl := Except.ok.inj h
            have hrs := release_stake_ok hrel
            have hadd2 := exceptAdd_ok hadd
            refine ⟨mapGet_mapSet_same _ _ _ _, rfl, ?_, ?_, hrs.1, ?_⟩
            · intro hle
              show st.token_info.staked - amount + amount = st.token_info.staked
              omega
            · show unbonding2 = st.token_info.unbonding + amount
              omega
            · show (bondingAt
                { stakes := mapSet st.stakes (sender, period) info2,
                  totals := totals2,
                  token_info := { staked := st.token_info.staked - amount,
                                  unbonding := unbonding2 },
                  claims := mapSet st.claims sender
                    (mapGet st.claims sender [] ++ [Claim.mk amount (now + period)]) }
                sender period).total_stake + amount =
                (bondingAt st sender period).total_stake
              unfold bondingAt
              simp only [mapGet_mapSet_same]
              exact hrs.2
    · exact absurd h (by simp)

def cfgEx : Config :=
  { instantiator := "creator", cw20_contract := "cw20", cw721_contract := "cw721",
    tokens_per_power := 1000, min_bond := 5000, unbonding_periods := [20, 40],
    max_distributions := 6 }

def stEx : StakeState :=
  { stakes := [(("alice", 20), ⟨100, []⟩)],
    totals := [(20, ⟨100, 0⟩), (40, ⟨0, 0⟩)],
    token_info := ⟨100, 0⟩,
    claims := [] }

def stEmptyEx : StakeState :=
  { stakes := [], totals := [], token_info := ⟨0, 0⟩, claims := [] }

def unbondStEx : StakeState :=
  (execute_unbond cfgEx 0 "alice" 30 20 stEx).toOption.getD stEmptyEx

theorem execute_unbond_spec_witness :
    30 ≤ (bondingAt stEx "alice" 20).total_stake ∧
    mapGet unbondStEx.claims "alice" [] =
      mapGet stEx.claims "alice" [] ++ [Claim.mk 30 20] ∧
    unbondStEx.token_info.unbonding = stEx.token_info.unbonding + 30 := by
  have h := (execute_unbond_spec cfgEx 0 "alice" 30 20 stEx).2.2 unbondStEx (by decide)
  exact ⟨h.2.2.2.2.1, h.1, h.2.2.2.1⟩

/-- Modelled from the spec: claim_tokens of the external claims controller
sums and removes every claim whose maturity is at or before now, returning
the sum and keeping the unmatured claims. -/
def claim_tokens (claims : List Claim) (now : Nat) : Nat × List Claim :=
  (((claims.filter (fun c => decide (c.release_at ≤ now))).map Claim.amount).sum,
    claims.filter (fun c => ! decide (c.release_at ≤ now)))

/-- An outbound cw20 transfer instruction emitted as a submessage. -/
structure TransferMsg where
  contract : String
  recipient : String
  amount : Nat
deriving DecidableEq

/-- Embedding of execute_claim (contract.rs, lines 697-731): drain matured
claims, fail NothingToClaim when the released sum is zero, otherwise
subtract the sum from TokenInfo.unbonding (saturating) and emit one
transfer instruction for the sum. -/
def execute_claim (cfg : Config) (now : Nat) (sender : String) (st : StakeState) :
    Except ContractError (StakeState × List TransferMsg) :=
  if (claim_tokens (mapGet st.claims sender []) now).1 = 0 then .error .NothingToClaim
  else
    .ok ({ st with
        claims := mapSet st.claims sender (claim_tokens (mapGet st.claims sender []) now).2,
        token_info := { staked := st.token_info.staked,
                        unbonding := st.token_info.unbonding -
                          (claim_tokens (mapGet st.claims sender []) now).1 } },
      [⟨cfg.cw20_contract, sender, (claim_tokens (mapGet st.claims sender []) now).1⟩])

/-- C3: claim removes exactly the claims with maturity at or before now and
transfers their sum; it fails NothingToClaim whenever that sum is zero
(including no claims at all, or none matured), making no state change; on
success it decrements TokenInfo.unbonding by the released amount
(saturating at zero) and emits exactly one outbound transfer instruction
for that amount. -/
theorem execute_claim_spec (cfg : Config) (now : Nat) (sender : String) (st : StakeState) :
    ((((mapGet st.claims sender []).filter
        (fun c => decide (c.release_at ≤ now))).map Claim.amount).sum = 0 →
      execute_claim cfg now sender st = .error .NothingToClaim) ∧
    (∀ st2 msgs, execute_claim cfg now sender st = .ok (st2, msgs) →
      mapGet st2.claims sender [] =
        (mapGet st.claims sender []).filter (fun c => ! decide (c.release_at ≤ now)) ∧
      st2.token_info.unbonding =
        st.token_info.unbonding -
          (((mapGet st.claims sender []).filter
            (fun c => decide (c.release_at ≤ now))).map Claim.amount).sum ∧
      st2.token_info.staked = st.token_info.staked ∧
      st2.stakes = st.stakes ∧
      st2.totals = st.totals ∧
      msgs = [TransferMsg.mk cfg.cw20_contract sender
        (((mapGet st.claims sender []).filter
          (fun c => decide (c.release_at ≤ now))).map Claim.amount).sum] ∧
      (((mapGet st.claims sender []).filter
        (fun c => decide (c.release_at ≤ now))).map Claim.amount).sum ≠ 0) := by
  refine ⟨?_, ?_⟩
  · intro h
    simp [execute_claim, claim_tokens, h]
  · intro st2 msgs h
    unfold execute_claim at h
    split at h
    next h0 => exact absurd h (by simp)
    next h0 =>
      have hp := Except.ok.inj h
      injection hp with ha hb
      subst ha
      subst hb
      refine ⟨?_, ?_, rfl, rfl, rfl, ?_, ?_⟩
      · rw [mapGet_mapSet_same]
        simp [claim_tokens]
      · simp [claim_tokens]
      · simp [claim_tokens]
      · simpa [claim_tokens] using h0

def claimStEx : StakeState :=
  { stakes := [], totals := [], token_info := ⟨0, 50⟩,
    claims := [("alice", [⟨30, 10⟩, ⟨20, 99⟩])] }

def claimResEx : Except ContractError (StakeState × List TransferMsg) :=
  execute_claim cfgEx 10 "alice" claimStEx

def claimStEx2 : StakeState := (claimResEx.toOption.map Prod.fst).getD stEmptyEx

def claimMsgsEx : List TransferMsg := (claimResEx.toOption.map Prod.snd).getD []

theorem execute_claim_spec_witness :
    mapGet claimStEx2.claims "alice" [] = [Claim.mk 20 99] ∧
    claimStEx2.token_info.unbonding = 20 ∧
    claimMsgsEx = [TransferMsg.mk "cw20" "alice" 30] := by
  have h := (execute_claim_spec cfgEx 10 "alice" claimStEx).2 claimStEx2 claimMsgsEx (by decide)
  exact ⟨h.1.trans (by decide), h.2.1.trans (by decide), h.2.2.2.2.2.1.trans (by decide)⟩

/-- Modelled from the spec: a reward curve (the wynd_curve_utils crate is
external to the repository) is an ordered sequence of (time, value)
breakpoints of a piecewise-linear, time-indexed schedule. -/
abbrev Curve := List (Nat × Nat)

/-- Modelled from the spec: linear interpolation between two breakpoints. -/
def interpolate (t1 v1 t2 v2 t : Nat) : Nat :=
  if v1 ≤ v2 then v1 + (v2 - v1) * (t - t1) / (t2 - t1)
  else v1 - (v1 - v2) * (t - t1) / (t2 - t1)

/-- Helper of curveValue: evaluation right of the first breakpoint. -/
def curveValueFrom (t1 v1 : Nat) : Curve → Nat → Nat
  | [], _ => v1
  | (t2, v2) :: rest, t =>
    if t ≤ t2 then interpolate t1 v1 t2 v2 t else curveValueFrom t2 v2 rest t

/-- Modelled from the spec: piecewise-linear evaluation with flat
extrapolation outside the domain (the empty curve is the zero schedule). -/
def curveValue : Curve → Nat → Nat
  | [], _ => 0
  | (t1, v1) :: rest, t => if t ≤ t1 then v1 else curveValueFrom t1 v1 rest t

/-- Modelled from the spec: range returns the minimum and the maximum value
over the domain; a piecewise-linear function attains both at breakpoints. -/
def curveRange : Curve → Nat × Nat
  | [] => (0, 0)
  | (_, v) :: rest =>
    (rest.foldl (fun a e => min a e.2) v, rest.foldl (fun a e => max a e.2) v)

/-- Modelled from the spec: shift translates every breakpoint time to the
right by the given delta. -/
def curveShift (c : Curve) (delta : Nat) : Curve := c.map (fun e => (e.1 + delta, e.2))

/-- Modelled from the spec: combine merges two curves into one whose value
everywhere is the sum of both inputs; breakpoints are the union of both
inputs times, with interpolation at non-shared points. -/
def curveCombine (a b : Curve) : Curve :=
  ((List.insertionSort (· ≤ ·) (a.map Prod.fst ++ b.map Prod.fst)).dedup).map
    (fun t => (t, curveValue a t + curveValue b t))

/-- Modelled from the spec: the monotonic-decreasing validation fails if any
later breakpoint has a strictly larger value. -/
def monotonicDecreasing : Curve → Bool
  | [] => true
  | [_] => true
  | p :: q :: rest => decide (q.2 ≤ p.2) && monotonicDecreasing (q :: rest)

/-- The constant curve used to initialise the reward curve of a new
distribution flow. -/
def curveConstant (v : Nat) : Curve := [(0, v)]

/-- Embedding of update_reward_config (contract.rs, lines 154-182): reject
the submitted schedule unless its range has minimum zero and maximum at
most the attached amount; shift it right by the current block time, combine
with the stored curve, validate monotonic decreasing, and store the
combination only on success. -/
def update_reward_config (now : Nat) (previous_reward_curve : Curve) (amount : Nat)
    (schedule : Curve) : Except ContractError Curve :=
  if (curveRange schedule).1 ≠ 0 ∨ amount < (curveRange schedule).2 then
    .error .InvalidRewards
  else
    if monotonicDecreasing (curveCombine previous_reward_curve (curveShift schedule now)) then
      .ok (curveCombine previous_reward_curve (curveShift schedule now))
    else .error .InvalidRewards

/-- C4: funding fails InvalidRewards when the submitted curve has a nonzero
range minimum or a range maximum above the attached amount; otherwise the
stored curve becomes the old curve combined with the schedule shifted right
by the current block time, and funding fails InvalidRewards (storing
nothing) when that combination is not monotonic decreasing. -/
theorem update_reward_config_spec (now : Nat) (prev : Curve) (amount : Nat)
    (schedule : Curve) :
    ((curveRange schedule).1 ≠ 0 ∨ amount < (curveRange schedule).2 →
      update_reward_config now prev amount schedule = .error .InvalidRewards) ∧
    ((curveRange schedule).1 = 0 → (curveRange schedule).2 ≤ amount →
      (monotonicDecreasing (curveCombine prev (curveShift schedule now)) = true →
        update_reward_config now prev amount schedule =
          .ok (curveCombine prev (curveShift schedule now))) ∧
      (monotonicDecreasing (curveCombine prev (curveShift schedule now)) = false →
        update_reward_config now prev amount schedule = .error .InvalidRewards)) := by
  refine ⟨?_, ?_⟩
  · intro h
    simp only [update_reward_config, if_pos h]
  · intro hmin hmax
    have hcond : ¬ ((curveRange schedule).1 ≠ 0 ∨ amount < (curveRange schedule).2) := by
      push_neg
      exact ⟨hmin, hmax⟩
    refine ⟨fun hmono => ?_, fun hmono => ?_⟩
    · simp only [update_reward_config, if_neg hcond, if_pos hmono]
    · simp only [update_reward_config, if_neg hcond, hmono]
      simp

theorem update_reward_config_spec_witness :
    update_reward_config 7 (curveConstant 0) 3 [(0, 5)] = .error .InvalidRewards :=
  (update_reward_config_spec 7 (curveConstant 0) 3 [(0, 5)]).1 (by decide)

/-- A reward distribution flow, from state.rs Distribution as initialised in
contract.rs; Decimal multipliers are embedded as their fixed-point atomics,
which preserves their ordering. -/
structure Distribution where
  manager : String
  reward_multipliers : List (Nat × Nat)
  shares_per_point : Nat
  shares_leftover : Nat
  distributed_total : Nat
  withdrawable_total : Nat
deriving DecidableEq

/-- The rewards list is valid when no adjacent pair of multipliers decreases
(the source fails when rewards.windows 2 has any strictly decreasing pair). -/
def multipliersAscending : List (Nat × Nat) → Bool
  | [] => true
  | [_] => true
  | p :: q :: rest => decide (p.2 ≤ q.2) && multipliersAscending (q :: rest)

/-- The asset is the staked cw20 token itself. -/
def isStakedToken (cfg : Config) (asset : AssetInfo) : Bool :=
  match asset with
  | .Token addr => decide (addr = cfg.cw20_contract)
  | .Native _ => false

/-- Embedding of execute_create_distribution_flow (contract.rs, lines
185-253), with the checks in source order: admin, staked-token asset, the
periods of the rewards list against the config, multiplier monotonicity,
the distribution count limit, and duplicate registration.  On success the
new Distribution record and the constant-zero reward curve are stored. -/
def execute_create_distribution_flow (is_admin : Bool) (cfg : Config)
    (existing : List AssetInfo) (manager : String) (asset : AssetInfo)
    (rewards : List (Nat × Nat)) : Except ContractError (Distribution × Curve) :=
  if ¬ is_admin then .error .Unauthorized
  else if isStakedToken cfg asset then .error .InvalidAsset
  else if rewards.map Prod.fst ≠ cfg.unbonding_periods then .error .InvalidRewards
  else if ¬ multipliersAscending rewards then .error .InvalidRewards
  else if cfg.max_distributions ≤ existing.length then
    .error (.TooManyDistributions cfg.max_distributions)
  else if asset ∈ existing then .error (.DistributionAlreadyExists asset)
  else .ok ({ manager := manager, reward_multipliers := rewards, shares_per_point := 0,
              shares_leftover := 0, distributed_total := 0, withdrawable_total := 0 },
            curveConstant 0)

/-- C5: create_distribution_flow fails unless the caller is the admin; fails
InvalidAsset when the asset is the staked token; fails InvalidRewards
unless the supplied period/multiplier list has exactly the configured
periods in order with non-decreasing multipliers; fails
TooManyDistributions when the count of existing distributions has reached
the cap; and fails DistributionAlreadyExists when the asset is already
registered; the checks apply in the source order. -/
theorem create_distribution_flow_spec (is_admin : Bool) (cfg : Config)
    (existing : List AssetInfo) (manager : String) (asset : AssetInfo)
    (rewards : List (Nat × Nat)) :
    (is_admin = false →
      execute_create_distribution_flow is_admin cfg existing manager asset rewards =
        .error .Unauthorized) ∧
    (is_admin = true → isStakedToken cfg asset = true →
      execute_create_distribution_flow is_admin cfg existing manager asset rewards =
        .error .InvalidAsset) ∧
    (is_admin = true → isStakedToken cfg asset = false →
      (rewards.map Prod.fst ≠ cfg.unbonding_periods ∨
        multipliersAscending rewards = false) →
      execute_create_distribution_flow is_admin cfg existing manager asset rewards =
        .error .InvalidRewards) ∧
    (is_admin = true → isStakedToken cfg asset = false →
      rewards.map Prod.fst = cfg.unbonding_periods → multipliersAscending rewards = true →
      cfg.max_distributions ≤ existing.length →
      execute_create_distribution_flow is_admin cfg existing manager asset rewards =
        .error (.TooManyDistributions cfg.max_distributions)) ∧
    (is_admin = true → isStakedToken cfg asset = false →
      rewards.map Prod.fst = cfg.unbonding_periods → multipliersAscending rewards = true →
      existing.length < cfg.max_distributions → asset ∈ existing →
      execute_create_distribution_flow is_admin cfg existing manager asset rewards =
        .error (.DistributionAlreadyExists asset)) ∧
    (is_admin = true → isStakedToken cfg asset = false →
      rewards.map Prod.fst = cfg.unbonding_periods → multipliersAscending rewards = true →
      existing.length < cfg.max_distributions → asset ∉ existing →
      execute_create_distribution_flow is_admin cfg existing manager asset rewards =
        .ok ({ manager := manager, reward_multipliers := rewards, shares_per_point := 0,
               shares_leftover := 0, distributed_total := 0, withdrawable_total := 0 },
             curveConstant 0)) := by
  refine ⟨?_, ?_, ?_, ?_, ?_, ?_⟩
  · intro h
    simp [execute_create_distribution_flow, h]
  · intro h1 h2
    simp [execute_create_distribution_flow, h1, h2]
  · intro h1 h2 h3
    rcases h3 with h3 | h3
    · simp [execute_create_distribution_flow, h1, h2, h3]
    · by_cases hper : rewards.map Prod.fst = cfg.unbonding_periods <;>
        simp [execute_create_distribution_flow, h1, h2, h3, hper]
  · intro h1 h2 h3 h4 h5
    simp [execute_create_distribution_flow, h1, h2, h3, h4, h5]
  · intro h1 h2 h3 h4 h5 h6
    simp [execute_create_distribution_flow, h1, h2, h3, h4, Nat.not_le.mpr h5, h6]
  · intro h1 h2 h3 h4 h5 h6
    simp [execute_create_distribution_flow, h1, h2, h3, h4, Nat.not_le.mpr h5, h6]

theorem create_distribution_flow_spec_witness :
    execute_create_distribution_flow true cfgEx [] "manager" (.Native "juno")
      [(20, 10000), (40, 20000)] =
    .ok ({ manager := "manager", reward_multipliers := [(20, 10000), (40, 20000)],
           shares_per_point := 0, shares_leftover := 0, distributed_total := 0,
           withdrawable_total := 0 }, curveConstant 0) :=
  (create_distribution_flow_spec true cfgEx [] "manager" (.Native "juno")
    [(20, 10000), (40, 20000)]).2.2.2.2.2 rfl (by decide) (by decide) (by decide)
    (by decide) (by decide)

theorem add_unlocked_total_stake (b : BondingInfo) (a : Nat) :
    (b.add_unlocked_tokens a).total_stake = b.total_stake + a := by
  unfold BondingInfo.add_unlocked_tokens BondingInfo.total_stake
  simp only
  omega

theorem add_locked_total_stake (b : BondingInfo) (t a : Nat) :
    (b.add_locked_tokens t a).total_stake = b.total_stake + a := by
  unfold BondingInfo.add_locked_tokens BondingInfo.total_stake
  simp
  omega

/-- The bond_to side of a rebond: tokens stay locked until now plus the
period difference when moving to a shorter period, and are added to the
free balance otherwise. -/
def rebondAdd (info_to : BondingInfo) (now amount bond_from bond_to : Nat) : BondingInfo :=
  if bond_to < bond_from then
    info_to.add_locked_tokens (now + (bond_from - bond_to)) amount
  else info_to.add_unlocked_tokens amount

theorem rebondAdd_total_stake (b : BondingInfo) (now amount f t : Nat) :
    (rebondAdd b now amount f t).total_stake = b.total_stake + amount := by
  unfold rebondAdd
  split
  · exact add_locked_total_stake b _ amount
  · exact add_unlocked_total_stake b amount

/-- Embedding of execute_rebond (contract.rs, lines 255-359): reject a zero
amount, a same-period rebond and unknown periods; release the amount from
the bond_from record (matured tranches first), add it to the bond_to
record (locked when moving to a shorter period), and update both period
totals from the staker full before/after totals.  The per-distribution
reward-power adjustment loop is embedded separately (update_rewards) and
does not touch the fields tracked here. -/
def execute_rebond (cfg : Config) (now : Nat) (sender : String)
    (amount bond_from bond_to : Nat) (st : StakeState) : Except ContractError StakeState :=
  if amount = 0 then .error .NoRebondAmount
  else if bond_from = bond_to then .error .SameUnbondingRebond
  else if bond_from ∉ cfg.unbonding_periods then .error (.NoUnbondingPeriodFound bond_from)
  else if bond_to ∉ cfg.unbonding_periods then .error (.NoUnbondingPeriodFound bond_to)
  else
    match (bondingAt st sender bond_from).release_stake now amount with
    | .error e => .error e
    | .ok info_from2 =>
      match update_totals cfg.min_bond st.totals bond_from
          (bondingAt st sender bond_from).total_stake info_from2.total_stake with
      | .error e => .error e
      | .ok totals1 =>
        match update_totals cfg.min_bond totals1 bond_to
            (mapGet (mapSet st.stakes (sender, bond_from) info_from2)
              (sender, bond_to) BondingInfo.empty).total_stake
            (rebondAdd (mapGet (mapSet st.stakes (sender, bond_from) info_from2)
              (sender, bond_to) BondingInfo.empty) now amount bond_from bond_to).total_stake with
        | .error e => .error e
        | .ok totals2 =>
          .ok { st with
            stakes := mapSet (mapSet st.stakes (sender, bond_from) info_from2)
              (sender, bond_to)
              (rebondAdd (mapGet (mapSet st.stakes (sender, bond_from) info_from2)
                (sender, bond_to) BondingInfo.empty) now amount bond_from bond_to),
            totals := totals2 }

/-- C6: a rebond of a positive amount fails SameUnbondingRebond when the two
periods are equal and NoUnbondingPeriodFound when either period is not
configured; on success the amount moves from the staker stake in
bond_from to bond_to, locked until now plus the period difference when
moving to a shorter period and immediately free otherwise. -/
theorem execute_rebond_spec (cfg : Config) (now : Nat) (sender : String)
    (amount bond_from bond_to : Nat) (st : StakeState) (hpos : 0 < amount) :
    (bond_from = bond_to →
      execute_rebond cfg now sender amount bond_from bond_to st =
        .error .SameUnbondingRebond) ∧
    (bond_from ≠ bond_to → bond_from ∉ cfg.unbonding_periods →
      execute_rebond cfg now sender amount bond_from bond_to st =
        .error (.NoUnbondingPeriodFound bond_from)) ∧
    (bond_from ≠ bond_to → bond_from ∈ cfg.unbonding_periods →
      bond_to ∉ cfg.unbonding_periods →
      execute_rebond cfg now sender amount bond_from bond_to st =
        .error (.NoUnbondingPeriodFound bond_to)) ∧
    (∀ st2, execute_rebond cfg now sender amount bond_from bond_to st = .ok st2 →
      amount ≤ (bondingAt st sender bond_from).total_stake ∧
      (bondingAt st2 sender bond_from).total_stake + amount =
        (bondingAt st sender bond_from).total_stake ∧
      (bondingAt st2 sender bond_to).total_stake =
        (bondingAt st sender bond_to).total_stake + amount ∧
      (bond_to < bond_from →
        bondingAt st2 sender bond_to =
          (bondingAt st sender bond_to).add_locked_tokens
            (now + (bond_from - bond_to)) amount) ∧
      (bond_from ≤ bond_to →
        bondingAt st2 sender bond_to =
          (bondingAt st sender bond_to).add_unlocked_tokens amount)) := by
  have hA : ¬ amount = 0 := by omega
  refine ⟨?_, ?_, ?_, ?_⟩
  · intro h
    simp [execute_rebond, hA, h]
  · intro h1 h2
    simp [execute_rebond, hA, h1, h2]
  · intro h1 h2 h3
    simp [execute_rebond, hA, h1, h2, h3]
  · intro st2 h
    unfold execute_rebond at h
    split at h
    · exact absurd h (by simp)
    · split at h
      · exact absurd h (by simp)
      · split at h
        · exact absurd h (by simp)
        · split at h
          · exact absurd h (by simp)
          next hne _ _ =>
            have hkey : ((sender, bond_from) : String × Nat) ≠ (sender, bond_to) := by
              simp [hne]
            split at h
            next e hrel => exact absurd h (by simp)
            next info_from2 hrel =>
              split at h
              next e htot => exact absurd h (by simp)
              next totals1 htot =>
                split at h
                next e htot2 => exact absurd h (by simp)
                next totals2 htot2 =>
                  obtain rfl := Except.ok.inj h
                  have hrs := release_stake_ok hrel
                  have hto : mapGet (mapSet st.stakes (sender, bond_from) info_from2)
                      (sender, bond_to) BondingInfo.empty =
                      bondingAt st sender bond_to :=
                    mapGet_mapSet_ne _ _ _ _ _ hkey
                  have hfrom2 : bondingAt
                      { st with
                        stakes := mapSet (mapSet st.stakes (sender, bond_from) info_from2)
                          (sender, bond_to)
                          (rebondAdd (mapGet (mapSet st.stakes (sender, bond_from) info_from2)
                            (sender, bond_to) BondingInfo.empty) now amount bond_from bond_to),
                        totals := totals2 } sender bond_from = info_from2 := by
                    unfold bondingAt
                    rw [mapGet_mapSet_ne _ _ _ _ _ hkey.symm, mapGet_mapSet_same]
                  have hto2 : bondingAt
                      { st with
                        stakes := mapSet (mapSet st.stakes (sender, bond_from) info_from2)
                          (sender, bond_to)
                          (rebondAdd (mapGet (mapSet st.stakes (sender, bond_from) info_from2)
                            (sender, bond_to) BondingInfo.empty) now amount bond_from bond_to),
                        totals := totals2 } sender bond_to =
                      rebondAdd (bondingAt st sender bond_to) now amount bond_from bond_to := by
                    unfold bondingAt
                    rw [mapGet_mapSet_same, hto]
                    rfl
                  refine ⟨hrs.1, ?_, ?_, ?_, ?_⟩
                  · rw [hfrom2]
                    exact hrs.2
                  · rw [hto2, rebondAdd_total_stake]
                  · intro hlt
                    rw [hto2]
                    unfold rebondAdd
                    rw [if_pos hlt]
                  · intro hle
                    rw [hto2]
                    unfold rebondAdd
                    rw [if_neg (by omega)]

def rebondStEx : StakeState :=
  (execute_rebond cfgEx 0 "alice" 30 20 40 stEx).toOption.getD stEmptyEx

theorem execute_rebond_spec_witness :
    (bondingAt rebondStEx "alice" 20).total_stake + 30 =
      (bondingAt stEx "alice" 20).total_stake ∧
    (bondingAt rebondStEx "alice" 40).total_stake =
      (bondingAt stEx "alice" 40).total_stake + 30 ∧
    bondingAt rebondStEx "alice" 40 =
      (bondingAt stEx "alice" 40).add_unlocked_tokens 30 := by
  have h := (execute_rebond_spec cfgEx 0 "alice" 30 20 40 stEx (by decide)).2.2.2
    rebondStEx (by decide)
  exact ⟨h.2.1, h.2.2.1, h.2.2.2.2 (by decide)⟩

/-- Per staker and asset adjustment record, from state.rs WithdrawAdjustment
as described by the spec: a signed shares correction and the withdrawn
total. -/
structure WithdrawAdjustment where
  shares_correction : Int
  withdrawn_rewards : Nat
deriving DecidableEq

/-- Modelled from the spec: apply_points_correction (distribution.rs is not
under src/) adds diff times shares_per_point to the staker shares
correction, in signed arithmetic, and changes nothing else. -/
def apply_points_correction (adj : WithdrawAdjustment) (shares_per_point : Nat)
    (diff : Int) : WithdrawAdjustment :=
  { adj with shares_correction := adj.shares_correction + diff * shares_per_point }

/-- Embedding of update_rewards (contract.rs, lines 676-695): short-circuit
when the reward power is unchanged, otherwise apply the points correction
with diff the signed difference of the new and old powers; the distribution
record is passed through unmodified, mirroring that the source only reads
shares_per_point from it. -/
def update_rewards (distribution : Distribution) (adj : WithdrawAdjustment)
    (old_reward_power new_reward_power : Nat) : Distribution × WithdrawAdjustment :=
  if old_reward_power = new_reward_power then (distribution, adj)
  else (distribution,
    apply_points_correction adj distribution.shares_per_point
      ((new_reward_power : Int) - (old_reward_power : Int)))

/-- C7: when the reward power of a staker for a distribution is unchanged,
update_rewards changes no distribution or adjustment state; otherwise the
shares correction changes by exactly (new - old) times shares_per_point in
signed arithmetic, withdrawn_rewards is unchanged, and the distribution
(in particular shares_per_point) is never modified by the stake mutation. -/
theorem update_rewards_spec (d : Distribution) (adj : WithdrawAdjustment)
    (old_reward_power new_reward_power : Nat) :
    (update_rewards d adj old_reward_power new_reward_power).1 = d ∧
    (old_reward_power = new_reward_power →
      (update_rewards d adj old_reward_power new_reward_power).2 = adj) ∧
    (old_reward_power ≠ new_reward_power →
      (update_rewards d adj old_reward_power new_reward_power).2.shares_correction =
        adj.shares_correction +
          ((new_reward_power : Int) - (old_reward_power : Int)) *
            (d.shares_per_point : Int) ∧
      (update_rewards d adj old_reward_power new_reward_power).2.withdrawn_rewards =
        adj.withdrawn_rewards) := by
  refine ⟨?_, ?_, ?_⟩
  · unfold update_rewards
    split <;> rfl
  · intro h
    simp [update_rewards, h]
  · intro h
    simp [update_rewards, h, apply_points_correction]

theorem update_rewards_spec_witness :
    (3 : Nat) ≠ (7 : Nat) ∧
    (update_rewards
      (Distribution.mk "manager" [(20, 10000)] 5 0 0 0)
      (WithdrawAdjustment.mk 2 0) 3 7).2.shares_correction =
      2 + ((7 : Int) - (3 : Int)) * (5 : Int) := by
  refine ⟨by decide, ?_⟩
  have h := (update_rewards_spec (Distribution.mk "manager" [(20, 10000)] 5 0 0 0)
    (WithdrawAdjustment.mk 2 0) 3 7).2.2 (by decide)
  exact h.1

/-- One iteration of the delegate loop of execute_mass_bond: add the amount
to the recipient free balance in the period and update the period totals
from the recipient full before/after totals. -/
def mass_bond_step (min_bond : Nat) (unbonding_period : Nat) (st : StakeState)
    (d : String × Nat) : Except ContractError StakeState :=
  match update_totals min_bond st.totals unbonding_period
      (bondingAt st d.1 unbonding_period).total_stake
      ((bondingAt st d.1 unbonding_period).add_unlocked_tokens d.2).total_stake with
  | .error e => .error e
  | .ok totals2 =>
    .ok { st with
      stakes := mapSet st.stakes (d.1, unbonding_period)
        ((bondingAt st d.1 unbonding_period).add_unlocked_tokens d.2),
      totals := totals2 }

/-- Sum of all delegated amounts of a mass bond. -/
def sumDelegations (delegate_to : List (String × Nat)) : Nat :=
  (delegate_to.map Prod.snd).sum

/-- Total amount delegated to one staker by a delegation list. -/
def delegatedTo (delegate_to : List (String × Nat)) (staker : String) : Nat :=
  ((delegate_to.filter (fun d => decide (d.1 = staker))).map Prod.snd).sum

/-- Embedding of execute_mass_bond (contract.rs, lines 381-478): check the
cw20 sender, the unbonding period (binary search over the sorted config
list, equivalent to membership) and that the delegations sum to at most the
transferred amount; then fold the delegate loop over the list and finally
add the full transferred amount to TokenInfo.staked.  The
per-distribution reward-power adjustment loop is embedded separately
(update_rewards) and does not touch the fields tracked here. -/
def execute_mass_bond (cfg : Config) (sender_cw20_contract : String) (amount_sent : Nat)
    (unbonding_period : Nat) (delegate_to : List (String × Nat)) (st : StakeState) :
    Except ContractError StakeState :=
  if cfg.cw20_contract ≠ sender_cw20_contract then
    .error (.Cw20AddressesNotMatch sender_cw20_contract cfg.cw20_contract)
  else if unbonding_period ∉ cfg.unbonding_periods then
    .error (.NoUnbondingPeriodFound unbonding_period)
  else if amount_sent < sumDelegations delegate_to then
    .error (.MassDelegateTooMuch (sumDelegations delegate_to) amount_sent)
  else
    match List.foldlM (mass_bond_step cfg.min_bond unbonding_period) st delegate_to with
    | .error e => .error e
    | .ok st2 =>
      match exceptAdd st2.token_info.staked amount_sent with
      | .error e => .error e
      | .ok staked2 =>
        .ok { st2 with
          token_info := { staked := staked2, unbonding := st2.token_info.unbonding } }

theorem mass_bond_step_token {mb p : Nat} {st : StakeState} {d : String × Nat}
    {st2 : StakeState} (h : mass_bond_step mb p st d = .ok st2) :
    st2.token_info = st.token_info := by
  unfold mass_bond_step at h
  split at h
  · exact absurd h (by simp)
  next totals2 htot =>
    obtain rfl := Except.ok.inj h
    rfl

theorem mass_bond_step_free {mb p : Nat} {st : StakeState} {d : String × Nat}
    {st2 : StakeState} (h : mass_bond_step mb p st d = .ok st2) (x : String) :
    (bondingAt st2 x p).free =
      (bondingAt st x p).free + (if d.1 = x then d.2 else 0) := by
  unfold mass_bond_step at h
  split at h
  · exact absurd h (by simp)
  next totals2 htot =>
    obtain rfl := Except.ok.inj h
    by_cases hx : d.1 = x
    · subst hx
      show (mapGet (mapSet st.stakes (d.1, p)
        ((bondingAt st d.1 p).add_unlocked_tokens d.2)) (d.1, p) BondingInfo.empty).free = _
      rw [mapGet_mapSet_same]
      simp [BondingInfo.add_unlocked_tokens]
    · have hkey : ((d.1, p) : String × Nat) ≠ (x, p) := by simp [hx]
      show (mapGet (mapSet st.stakes (d.1, p)
        ((bondingAt st d.1 p).add_unlocked_tokens d.2)) (x, p) BondingInfo.empty).free = _
      rw [mapGet_mapSet_ne _ _ _ _ _ hkey]
      simp [hx, bondingAt]

theorem foldl_mass_bond_token :
    ∀ (l : List (String × Nat)) (mb p : Nat) (st st2 : StakeState),
    List.foldlM (mass_bond_step mb p) st l = .ok st2 → st2.token_info = st.token_info := by
  intro l
  induction l with
  | nil =>
    intro mb p st st2 h
    rw [List.foldlM_nil] at h
    obtain rfl := Except.ok.inj h
    rfl
  | cons d l ih =>
    intro mb p st st2 h
    rw [List.foldlM_cons] at h
    cases hstep : mass_bond_step mb p st d with
    | error e =>
      rw [hstep] at h
      exact Except.noConfusion
        (show (Except.error e : Except ContractError StakeState) = Except.ok st2 from h)
    | ok st1 =>
      rw [hstep] at h
      have h2 : List.foldlM (mass_bond_step mb p) st1 l = .ok st2 := h
      rw [ih mb p st1 st2 h2, mass_bond_step_token hstep]

theorem foldl_mass_bond_free :
    ∀ (l : List (String × Nat)) (mb p : Nat) (st st2 : StakeState),
    List.foldlM (mass_bond_step mb p) st l = .ok st2 →
    ∀ x, (bondingAt st2 x p).free = (bondingAt st x p).free + delegatedTo l x := by
  intro l
  induction l with
  | nil =>
    intro mb p st st2 h x
    rw [List.foldlM_nil] at h
    obtain rfl := Except.ok.inj h
    simp [delegatedTo]
  | cons d l ih =>
    intro mb p st st2 h x
    rw [List.foldlM_cons] at h
    cases hstep : mass_bond_step mb p st d with
    | error e =>
      rw [hstep] at h
      exact Except.noConfusion
        (show (Except.error e : Except ContractError StakeState) = Except.ok st2 from h)
    | ok st1 =>
      rw [hstep] at h
      have h2 : List.foldlM (mass_bond_step mb p) st1 l = .ok st2 := h
      have hf := mass_bond_step_free hstep x
      have hl := ih mb p st1 st2 h2 x
      have hd : delegatedTo (d :: l) x = (if d.1 = x then d.2 else 0) + delegatedTo l x := by
        unfold delegatedTo
        by_cases hx : d.1 = x <;> simp [List.filter_cons, hx]
      rw [hl, hf, hd]
      omega

/-- C8: mass_bond fails MassDelegateTooMuch when the delegated amounts sum
to more than the transferred amount (before any state change) and
NoUnbondingPeriodFound when the period is not configured; on success each
recipient free balance in the period increases by the total delegated to
them by the list. -/
theorem execute_mass_bond_spec (cfg : Config) (sender_cw20 : String) (amount_sent : Nat)
    (period : Nat) (delegate_to : List (String × Nat)) (st : StakeState) :
    (cfg.cw20_contract = sender_cw20 → period ∉ cfg.unbonding_periods →
      execute_mass_bond cfg sender_cw20 amount_sent period delegate_to st =
        .error (.NoUnbondingPeriodFound period)) ∧
    (cfg.cw20_contract = sender_cw20 → period ∈ cfg.unbonding_periods →
      amount_sent < sumDelegations delegate_to →
      execute_mass_bond cfg sender_cw20 amount_sent period delegate_to st =
        .error (.MassDelegateTooMuch (sumDelegations delegate_to) amount_sent)) ∧
    (∀ st2, execute_mass_bond cfg sender_cw20 amount_sent period delegate_to st = .ok st2 →
      ∀ x, (bondingAt st2 x period).free =
        (bondingAt st x period).free + delegatedTo delegate_to x) := by
  refine ⟨?_, ?_, ?_⟩
  · intro h1 h2
    simp [execute_mass_bond, h1, h2]
  · intro h1 h2 h3
    simp [execute_mass_bond, h1, h2, h3]
  · intro st2 h
    unfold execute_mass_bond at h
    split at h
    · exact absurd h (by simp)
    · split at h
      · exact absurd h (by simp)
      · split at h
        · exact absurd h (by simp)
        · split at h
          next e hf => exact absurd h (by simp)
          next st3 hf =>
            split at h
            next e ha => exact absurd h (by simp)
            next staked2 ha =>
              obtain rfl := Except.ok.inj h
              intro x
              exact foldl_mass_bond_free delegate_to cfg.min_bond period st st3 hf x

/-- C10: on every successful mass_bond the global TokenInfo.staked grows by
exactly the transferred amount (not by the delegation sum, which is only
bounded by it), while TokenInfo.unbonding is unchanged; with a strict
remainder the aggregate therefore receives more than the stakers do. -/
theorem execute_mass_bond_token_info (cfg : Config) (sender_cw20 : String)
    (amount_sent : Nat) (period : Nat) (delegate_to : List (String × Nat))
    (st : StakeState) :
    ∀ st2, execute_mass_bond cfg sender_cw20 amount_sent period delegate_to st = .ok st2 →
      st2.token_info.staked = st.token_info.staked + amount_sent ∧
      st2.token_info.unbonding = st.token_info.unbonding ∧
      sumDelegations delegate_to ≤ amount_sent := by
  intro st2 h
  unfold execute_mass_bond at h
  split at h
  · exact absurd h (by simp)
  · split at h
    · exact absurd h (by simp)
    · split at h
      next hsum => exact absurd h (by simp)
      next hsum =>
        split at h
        next e hf => exact absurd h (by simp)
        next st3 hf =>
          split at h
          next e ha => exact absurd h (by simp)
          next staked2 ha =>
            obtain rfl := Except.ok.inj h
            have ht := foldl_mass_bond_token delegate_to cfg.min_bond period st st3 hf
            have ha2 := exceptAdd_ok ha
            refine ⟨?_, ?_, by omega⟩
            · show staked2 = st.token_info.staked + amount_sent
              rw [ha2, ht]
            · show st3.token_info.unbonding = st.token_info.unbonding
              rw [ht]

def massStartEx : StakeState :=
  { stakes := [], totals := [(20, ⟨0, 0⟩), (40, ⟨0, 0⟩)], token_info := ⟨0, 0⟩, claims := [] }

def massStEx : StakeState :=
  (execute_mass_bond cfgEx "cw20" 5 20 [("alice", 3), ("bob", 1)] massStartEx).toOption.getD
    stEmptyEx

theorem execute_mass_bond_spec_witness :
    (bondingAt massStEx "alice" 20).free =
      (bondingAt massStartEx "alice" 20).free +
        delegatedTo [("alice", 3), ("bob", 1)] "alice" :=
  (execute_mass_bond_spec cfgEx "cw20" 5 20 [("alice", 3), ("bob", 1)] massStartEx).2.2
    massStEx (by decide) "alice"

theorem execute_mass_bond_token_info_witness :
    massStEx.token_info.staked = massStartEx.token_info.staked + 5 ∧
    sumDelegations [("alice", 3), ("bob", 1)] ≤ 5 := by
  have h := execute_mass_bond_token_info cfgEx "cw20" 5 20 [("alice", 3), ("bob", 1)]
    massStartEx massStEx (by decide)
  exact ⟨h.1, h.2.2⟩

/-- Instantiation input, from sg_swap::stake::InstantiateMsg as consumed by
instantiate in contract.rs. -/
structure InstantiateMsg where
  cw20_contract : String
  cw721_contract : String
  tokens_per_power : Nat
  min_bond : Nat
  unbonding_periods : List Nat
  admin : Option String
  max_distributions : Nat

/-- Embedding of instantiate (contract.rs, lines 41-84): min_bond is raised
to at least 1, the unbonding periods are sorted ascending in place
(sort_unstable, embedded as a sorted permutation), one zero TotalStake
record is created per period in that order, and the cw20 contract address
is the hardcoded placeholder of the source. -/
def instantiate (sender : String) (msg : InstantiateMsg) :
    Config × List (Nat × TotalStake) :=
  ({ instantiator := sender,
     cw20_contract := "terra1hzh9vpxhsk82503se0vv5jj6etdvxu3nv8x7zu",
     cw721_contract := msg.cw721_contract,
     tokens_per_power := msg.tokens_per_power,
     min_bond := max msg.min_bond 1,
     unbonding_periods := List.insertionSort (· ≤ ·) msg.unbonding_periods,
     max_distributions := msg.max_distributions },
   (List.insertionSort (· ≤ ·) msg.unbonding_periods).map
     (fun unbonding_period => (unbonding_period, ⟨0, 0⟩)))

/-- C9: instantiation stores min_bond equal to the maximum of the requested
value and 1, stores the unbonding periods as the input list sorted in
ascending order, and initialises one zero TotalStake record per period in
that order. -/
theorem instantiate_spec (sender : String) (msg : InstantiateMsg) :
    (instantiate sender msg).1.min_bond = max msg.min_bond 1 ∧
    List.Sorted (· ≤ ·) (instantiate sender msg).1.unbonding_periods ∧
    List.Perm (instantiate sender msg).1.unbonding_periods msg.unbonding_periods ∧
    (instantiate sender msg).2 =
      (instantiate sender msg).1.unbonding_periods.map
        (fun unbonding_period => (unbonding_period, TotalStake.mk 0 0)) :=
  ⟨rfl, List.sorted_insertionSort _ _, List.perm_insertionSort _ _, rfl⟩

end SgStake
